import Mathlib

/-!
# String construction in the handle/rooting bridge (`deps/spidershim/src/v8string.cc`)

A shallow embedding of the two `v8::String::NewFromUtf8` overloads.  The C++ code mutates the
isolate through pointers; here the isolate is passed in and the updated isolate is returned.
The engine primitives, the isolate layout and the handle types are declared in headers that
are not part of the translated file; they are modelled from the specification and every such
definition says so in its doc comment.
-/

/-- One `char` of a byte buffer (`const char* data`). -/
abbrev Byte := Fin 256

namespace JS

/-- Modelled from the spec: an engine value (`JS::Value`, declared in jsapi.h).  Only the
string case is ever built by the translated code; `string p` refers to heap cell `p`. -/
inductive Value where
  | undefined
  | string (str : Nat)
deriving DecidableEq, Repr

end JS

/-- Modelled from the spec: the collaborator interface consumed from the underlying engine
(section 6): counted copy, zero-terminated copy and the generic root primitive. -/
inductive EngineCall where
  | NewStringCopyN (data : List Byte) (count : Nat)
  | NewStringCopyZ (data : List Byte)
  | Root (value : JS.Value)
deriving DecidableEq, Repr

/-- Whether an engine call is one of the two string allocations. -/
def EngineCall.isAllocation : EngineCall → Bool
  | .NewStringCopyN _ _ => true
  | .NewStringCopyZ _ => true
  | .Root _ => false

/-- Modelled from the spec: the underlying engine's execution context (`JSContext`, declared
in jsapi.h).  `heap` holds the string cells allocated so far, a `JSString*` is the index of a
cell.  `oomSchedule` decides the upcoming allocation requests in order (`true`: the request
fails with out of memory); once it is used up every request succeeds.  `calls` records the
primitives invoked on the context, oldest first. -/
structure JSContext where
  heap : List (List Byte)
  oomSchedule : List Bool
  calls : List EngineCall
deriving DecidableEq, Repr

/-- Modelled from the spec: the engine allocator behind both copy primitives.  A failed
request returns the null pointer (`none`) and leaves the heap alone; a successful one
appends a fresh cell holding `chars` and returns its address. -/
def JSContext.newString (cx : JSContext) (call : EngineCall) (chars : List Byte) :
    Option Nat × JSContext :=
  match cx.oomSchedule with
  | true :: rest =>
    (none, { cx with oomSchedule := rest, calls := cx.calls ++ [call] })
  | false :: rest =>
    (some cx.heap.length,
      { heap := cx.heap ++ [chars], oomSchedule := rest, calls := cx.calls ++ [call] })
  | [] =>
    (some cx.heap.length,
      { cx with heap := cx.heap ++ [chars], calls := cx.calls ++ [call] })

/-- Modelled from the spec: `copy-bytes-into-new-string(context, bytes, count)` (jsapi.h):
a new engine string holding exactly the first `n` bytes of `s`, or null on out of memory. -/
def JS_NewStringCopyN (cx : JSContext) (s : List Byte) (n : Nat) : Option Nat × JSContext :=
  cx.newString (EngineCall.NewStringCopyN s n) (s.take n)

/-- Modelled from the spec: `copy-cstring-into-new-string(context, bytes)` (jsapi.h): a new
engine string holding the bytes of `s` up to its first zero byte (C-string semantics), or
null on out of memory. -/
def JS_NewStringCopyZ (cx : JSContext) (s : List Byte) : Option Nat × JSContext :=
  cx.newString (EngineCall.NewStringCopyZ s) (s.takeWhile (fun b => b ≠ 0))

namespace v8

/-- Modelled from the spec: the construction mode of the fallible entry point, the enum class
`v8::NewStringType` of v8.h (`kNormal` against the interned mode). -/
inductive NewStringType where
  | kNormal
  | kInternalized
deriving DecidableEq, Repr

/-- Modelled from the spec: the construction mode of the legacy entry point, the enum
`v8::String::NewStringType` of v8.h, whose enumerators carry the integer values of the
enumerators of `v8::NewStringType`. -/
inductive String.NewStringType where
  | kNormalString
  | kInternalizedString
deriving DecidableEq, Repr

/-- The conversion `static_cast<v8::NewStringType>(type)` of the legacy overload: each legacy
enumerator goes to the enumerator whose integer value it carries. -/
def String.NewStringType.static_cast : String.NewStringType → v8.NewStringType
  | .kNormalString => v8.NewStringType.kNormal
  | .kInternalizedString => v8.NewStringType.kInternalized

/-- Modelled from the spec: a slot reference as returned by `Root`: the index of the Scope
frame in the rooting stack and the index of the slot inside that frame. -/
structure SlotRef where
  frame : Nat
  slot : Nat
deriving DecidableEq, Repr

/-- Modelled from the spec: `Local<T>` of v8.h, a view into a Scope-owned slot, or empty. -/
structure Local where
  val : Option SlotRef
deriving DecidableEq, Repr

/-- Modelled from the spec: the default constructor `Local<T>()` of v8.h: the empty handle
(section 4.3). -/
def Local.empty : Local := { val := none }

/-- Modelled from the spec: the emptiness test `Local<T>::IsEmpty` of v8.h. -/
def Local.IsEmpty (l : Local) : Bool := l.val.isNone

/-- Modelled from the spec: `MaybeLocal<T>` of v8.h: either empty or holding a `Local<T>`;
no other state is representable. -/
structure MaybeLocal where
  val : Option SlotRef
deriving DecidableEq, Repr

/-- Modelled from the spec: the default constructor `MaybeLocal<T>()` of v8.h: the empty Maybe
(`Empty()` of section 4.4). -/
def MaybeLocal.Empty : MaybeLocal := { val := none }

/-- Modelled from the spec: the converting constructor `MaybeLocal<T>(Local<S>)` of v8.h, used
where a handle is returned as a Maybe (`Just(local)` of section 4.4). -/
def MaybeLocal.Just (l : Local) : MaybeLocal := { val := l.val }

/-- Modelled from the spec: the emptiness test `MaybeLocal<T>::IsEmpty` of v8.h. -/
def MaybeLocal.IsEmpty (m : MaybeLocal) : Bool := m.val.isNone

/-- Modelled from the spec: `FromMaybe(defaultValue)` (section 4.4): the held value if
present, else `defaultValue`. -/
def MaybeLocal.FromMaybe (m : MaybeLocal) (defaultValue : Local) : Local :=
  match m.val with
  | some s => { val := some s }
  | none => defaultValue

/-- Modelled from the spec: the isolate (v8isolate.h, section 3): it owns one engine context,
the rooting stack (Scope frames, innermost last, each frame the slots rooted while it was on
top) and the single pending-failure slot. -/
structure Isolate where
  cx : JSContext
  rootingStack : List (List JS.Value)
  pendingFailure : Option JS.Value
deriving DecidableEq, Repr

/-- The two ways a call can stop without returning: a failed `assert`, and a contract
violation of the bridge (rooting while no Scope is entered). -/
inductive Fault where
  | assertionFailure
  | contractViolation
deriving DecidableEq, Repr

/-- How a call ends: it returns a value or it stops with a fault. -/
inductive Completion (α : Type) where
  | returned (value : α)
  | aborted (fault : Fault)
deriving DecidableEq, Repr

/-- Applies `f` to the returned value, if any. -/
def Completion.map {α β : Type} (f : α → β) : Completion α → Completion β
  | .returned a => .returned (f a)
  | .aborted e => .aborted e

/-- What a call leaves behind: how it ended and the isolate as it then is. -/
structure Outcome (α : Type) where
  result : Completion α
  isolate : Isolate
deriving DecidableEq, Repr

/-- Modelled from the spec: the `context-handle` accessor `JSContextFromIsolate`
(v8isolate.h). -/
def JSContextFromIsolate (isolate : Isolate) : JSContext := isolate.cx

/-- Modelled from the spec: `Root(value) -> SlotRef` (section 4.2): registers `value` in the
current innermost frame; only the topmost frame accepts new roots.  With no Scope entered
there is no frame to take the root (`none`). -/
def Isolate.Root (isolate : Isolate) (value : JS.Value) : Option SlotRef × Isolate :=
  let logged : Isolate :=
    { isolate with cx := { isolate.cx with calls := isolate.cx.calls ++ [EngineCall.Root value] } }
  match isolate.rootingStack.getLast? with
  | none => (none, logged)
  | some top =>
    (some { frame := isolate.rootingStack.length - 1, slot := top.length },
      { logged with rootingStack := isolate.rootingStack.dropLast ++ [top ++ [value]] })

/-- Modelled from the spec: `internal::Local<T>::New(isolate, value)` (v8local.h): roots the
value in the current Scope and wraps the slot as a `Local` (section 4.3: a `Local` is
constructed only from a `SlotRef` returned by `Root`). -/
def internal.Local.New (isolate : Isolate) (value : JS.Value) : Outcome Local :=
  match isolate.Root value with
  | (some slot, isolate1) => { result := .returned { val := some slot }, isolate := isolate1 }
  | (none, isolate1) => { result := .aborted .contractViolation, isolate := isolate1 }

/-- The initialiser of `str` in the fallible overload:
`length >= 0 ? JS_NewStringCopyN(cx, data, length) : JS_NewStringCopyZ(cx, data)`. -/
def String.NewFromUtf8.newString (cx : JSContext) (data : List Byte) (length : Int) :
    Option Nat × JSContext :=
  if length ≥ 0 then JS_NewStringCopyN cx data length.toNat else JS_NewStringCopyZ cx data

/-- The fallible overload
`MaybeLocal<String> String::NewFromUtf8(Isolate*, const char*, v8::NewStringType, int)`.
`assert` is the one of `<assert.h>`, compiled in: a false condition stops the call before
anything else runs.  `JS::RootedString str` is a local of the call holding the pointer
(possibly null) returned by the engine; its stack root lives and dies with the call. -/
def String.NewFromUtf8 (isolate : Isolate) (data : List Byte) (type : v8.NewStringType)
    (length : Int) : Outcome MaybeLocal :=
  if type ≠ v8.NewStringType.kNormal then
    { result := .aborted .assertionFailure, isolate := isolate }
  else
    let cx := JSContextFromIsolate isolate
    let alloc := String.NewFromUtf8.newString cx data length
    let isolate1 : Isolate := { isolate with cx := alloc.2 }
    match alloc.1 with
    | none => { result := .returned MaybeLocal.Empty, isolate := isolate1 }
    | some str =>
      let strVal := JS.Value.string str
      let made := internal.Local.New isolate1 strVal
      { result := made.result.map MaybeLocal.Just, isolate := made.isolate }

/-- The legacy overload
`Local<String> String::NewFromUtf8(Isolate*, const char*, String::NewStringType, int)`. -/
def String.NewFromUtf8Local (isolate : Isolate) (data : List Byte)
    (type : String.NewStringType) (length : Int) : Outcome Local :=
  let maybe := String.NewFromUtf8 isolate data type.static_cast length
  { result := maybe.result.map (fun m => m.FromMaybe Local.empty), isolate := maybe.isolate }

/-- The legacy entry point as the specification words it (sections 4.4 and 4.5), for a mode
of the fallible form given outright: call the fallible form once; if it returns a Maybe
holding a value, return that value, if it returns the empty Maybe, return the empty handle;
if it stops, stop the same way.  The isolate is the one that single call leaves. -/
def String.NewFromUtf8Local_spec (isolate : Isolate) (data : List Byte)
    (mode : v8.NewStringType) (length : Int) : Outcome Local :=
  match String.NewFromUtf8 isolate data mode length with
  | { result := .returned { val := some held }, isolate := after } =>
    { result := .returned { val := some held }, isolate := after }
  | { result := .returned { val := none }, isolate := after } =>
    { result := .returned { val := none }, isolate := after }
  | { result := .aborted fault, isolate := after } =>
    { result := .aborted fault, isolate := after }

/-- The value held by a slot of the rooting stack, if the slot exists. -/
def Isolate.slotValue (isolate : Isolate) (ref : SlotRef) : Option JS.Value :=
  match isolate.rootingStack[ref.frame]? with
  | some frame => frame[ref.slot]?
  | none => none

/-- The bytes of the engine string a handle refers to, if it refers to one. -/
def Isolate.stringContents (isolate : Isolate) (l : Local) : Option (List Byte) :=
  match l.val with
  | none => none
  | some ref =>
    match isolate.slotValue ref with
    | some (JS.Value.string str) => isolate.cx.heap[str]?
    | _ => none

/-- The engine primitive the fallible overload invokes for a given `length`. -/
def String.NewFromUtf8.newStringCall (data : List Byte) (length : Int) : EngineCall :=
  if length ≥ 0 then EngineCall.NewStringCopyN data length.toNat
  else EngineCall.NewStringCopyZ data

/-- The bytes the fallible overload asks the engine to copy for a given `length`. -/
def String.NewFromUtf8.requestedBytes (data : List Byte) (length : Int) : List Byte :=
  if length ≥ 0 then data.take length.toNat else data.takeWhile (fun b => b ≠ 0)

/-- An isolate with one empty Scope entered, an empty engine heap and no failure scheduled. -/
def sampleIsolate : Isolate :=
  { cx := { heap := [], oomSchedule := [], calls := [] },
    rootingStack := [[]],
    pendingFailure := none }

/-- An isolate inside a nested Scope: the outer frame roots the one string of the engine heap,
the inner frame is still empty. -/
def nestedIsolate : Isolate :=
  { cx := { heap := [[104]], oomSchedule := [], calls := [] },
    rootingStack := [[JS.Value.string 0], []],
    pendingFailure := none }

/-- An isolate inside a nested Scope, with a pending failure recorded and the next engine
allocation scheduled to fail. -/
def exhaustedIsolate : Isolate :=
  { cx := { heap := [[104]], oomSchedule := [true], calls := [] },
    rootingStack := [[JS.Value.string 0], []],
    pendingFailure := some (JS.Value.string 0) }

/-! ## The engine allocator -/

theorem newString_eq_none {cx : JSContext} {call : EngineCall} {chars : List Byte}
    (h : (cx.newString call chars).1 = none) :
    (cx.newString call chars).2.heap = cx.heap ∧
      (cx.newString call chars).2.calls = cx.calls ++ [call] := by
  unfold JSContext.newString at h ⊢
  rcases hs : cx.oomSchedule with _ | ⟨b, rest⟩
  · simp [hs] at h
  · cases b <;> simp [hs] at h ⊢

theorem newString_eq_some {cx : JSContext} {call : EngineCall} {chars : List Byte} {str : Nat}
    (h : (cx.newString call chars).1 = some str) :
    str = cx.heap.length ∧ (cx.newString call chars).2.heap = cx.heap ++ [chars] ∧
      (cx.newString call chars).2.calls = cx.calls ++ [call] := by
  unfold JSContext.newString at h ⊢
  rcases hs : cx.oomSchedule with _ | ⟨b, rest⟩
  · simp [hs] at h ⊢
    exact h.symm
  · cases b <;> simp [hs] at h ⊢
    exact h.symm

theorem newStringFor_eq (cx : JSContext) (data : List Byte) (length : Int) :
    String.NewFromUtf8.newString cx data length =
      cx.newString (String.NewFromUtf8.newStringCall data length)
        (String.NewFromUtf8.requestedBytes data length) := by
  unfold String.NewFromUtf8.newString String.NewFromUtf8.newStringCall
    String.NewFromUtf8.requestedBytes JS_NewStringCopyN JS_NewStringCopyZ
  split <;> rfl

/-! ## The two paths of the fallible overload -/

theorem NewFromUtf8_of_null (isolate : Isolate) (data : List Byte) (length : Int)
    (h : (String.NewFromUtf8.newString isolate.cx data length).1 = none) :
    String.NewFromUtf8 isolate data NewStringType.kNormal length =
      { result := .returned MaybeLocal.Empty,
        isolate := { isolate with cx := (String.NewFromUtf8.newString isolate.cx data length).2 } } := by
  simp [String.NewFromUtf8, JSContextFromIsolate, h]

theorem NewFromUtf8_of_some (isolate : Isolate) (data : List Byte) (length : Int) (str : Nat)
    (below : List (List JS.Value)) (top : List JS.Value)
    (hstack : isolate.rootingStack = below ++ [top])
    (h : (String.NewFromUtf8.newString isolate.cx data length).1 = some str) :
    String.NewFromUtf8 isolate data NewStringType.kNormal length =
      { result := .returned { val := some { frame := below.length, slot := top.length } },
        isolate :=
          { cx := { (String.NewFromUtf8.newString isolate.cx data length).2 with
                    calls := (String.NewFromUtf8.newString isolate.cx data length).2.calls ++
                      [EngineCall.Root (JS.Value.string str)] },
            rootingStack := below ++ [top ++ [JS.Value.string str]],
            pendingFailure := isolate.pendingFailure } } := by
  simp [String.NewFromUtf8, JSContextFromIsolate, h, internal.Local.New, Isolate.Root, hstack,
    Completion.map, MaybeLocal.Just]

/-! ## Reading slots back -/

theorem getElem?_append_cons_length {α : Type} (l : List α) (a : α) (rest : List α) :
    (l ++ a :: rest)[l.length]? = some a := by
  rw [List.getElem?_append_right (le_refl _)]
  simp

theorem slotValue_top (isolate : Isolate) (below : List (List JS.Value)) (top : List JS.Value)
    (i : Nat) (hstack : isolate.rootingStack = below ++ [top]) :
    isolate.slotValue { frame := below.length, slot := i } = top[i]? := by
  simp [Isolate.slotValue, hstack]

theorem exists_top_of_ne_nil {stack : List (List JS.Value)} (h : stack ≠ []) :
    ∃ below top, stack = below ++ [top] :=
  ⟨stack.dropLast, stack.getLast h, (List.dropLast_append_getLast h).symm⟩

theorem takeWhile_ne_zero_split (data : List Byte) (h : (0 : Byte) ∈ data) :
    ∃ rest, data = data.takeWhile (fun b => b ≠ 0) ++ 0 :: rest ∧
      (0 : Byte) ∉ data.takeWhile (fun b => b ≠ 0) := by
  induction data with
  | nil => simp at h
  | cons b bs ih =>
    by_cases hb : b = 0
    · subst hb
      exact ⟨bs, by simp, by simp⟩
    · have hmem : (0 : Byte) ∈ bs := by
        rcases List.mem_cons.mp h with h0 | h0
        · exact absurd h0.symm hb
        · exact h0
      obtain ⟨rest, hsplit, hnot⟩ := ih hmem
      refine ⟨rest, ?_, ?_⟩
      · simp only [List.takeWhile_cons, ne_eq, hb, not_false_eq_true, decide_True, if_true,
          List.cons_append]
        exact congrArg (List.cons b) hsplit
      · simp only [List.takeWhile_cons, ne_eq, hb, not_false_eq_true, decide_True, if_true,
          List.mem_cons, not_or]
        exact ⟨fun h0 => hb h0.symm, hnot⟩

theorem stringContents_top (isolate : Isolate) (below : List (List JS.Value))
    (top : List JS.Value) (i str : Nat) (chars : List Byte)
    (hstack : isolate.rootingStack = below ++ [top])
    (hslot : top[i]? = some (JS.Value.string str)) (hcell : isolate.cx.heap[str]? = some chars) :
    isolate.stringContents { val := some { frame := below.length, slot := i } } = some chars := by
  simp [Isolate.stringContents, slotValue_top isolate below top i hstack, hslot, hcell]

/-! ## What a call of the fallible overload leaves behind -/

theorem NewFromUtf8_failure (isolate : Isolate) (data : List Byte) (length : Int)
    (h : (String.NewFromUtf8.newString isolate.cx data length).1 = none) :
    (String.NewFromUtf8 isolate data NewStringType.kNormal length).result =
        .returned MaybeLocal.Empty ∧
      (String.NewFromUtf8 isolate data NewStringType.kNormal length).isolate.rootingStack =
        isolate.rootingStack ∧
      (String.NewFromUtf8 isolate data NewStringType.kNormal length).isolate.pendingFailure =
        isolate.pendingFailure ∧
      (String.NewFromUtf8 isolate data NewStringType.kNormal length).isolate.cx.heap =
        isolate.cx.heap ∧
      (String.NewFromUtf8 isolate data NewStringType.kNormal length).isolate.cx.calls =
        isolate.cx.calls ++ [String.NewFromUtf8.newStringCall data length] := by
  rw [NewFromUtf8_of_null isolate data length h]
  rw [newStringFor_eq] at h ⊢
  obtain ⟨hheap, hcalls⟩ := newString_eq_none h
  exact ⟨rfl, rfl, rfl, hheap, hcalls⟩

theorem NewFromUtf8_success (isolate : Isolate) (data : List Byte) (length : Int) (str : Nat)
    (below : List (List JS.Value)) (top : List JS.Value)
    (hstack : isolate.rootingStack = below ++ [top])
    (h : (String.NewFromUtf8.newString isolate.cx data length).1 = some str) :
    (String.NewFromUtf8 isolate data NewStringType.kNormal length).result =
        .returned { val := some { frame := below.length, slot := top.length } } ∧
      (String.NewFromUtf8 isolate data NewStringType.kNormal length).isolate.rootingStack =
        below ++ [top ++ [JS.Value.string str]] ∧
      (String.NewFromUtf8 isolate data NewStringType.kNormal length).isolate.pendingFailure =
        isolate.pendingFailure ∧
      (String.NewFromUtf8 isolate data NewStringType.kNormal length).isolate.cx.heap =
        isolate.cx.heap ++ [String.NewFromUtf8.requestedBytes data length] ∧
      (String.NewFromUtf8 isolate data NewStringType.kNormal length).isolate.cx.calls =
        isolate.cx.calls ++
          [String.NewFromUtf8.newStringCall data length, EngineCall.Root (JS.Value.string str)] ∧
      str = isolate.cx.heap.length := by
  rw [NewFromUtf8_of_some isolate data length str below top hstack h]
  rw [newStringFor_eq] at h ⊢
  obtain ⟨hstr, hheap, hcalls⟩ := newString_eq_some h
  refine ⟨rfl, rfl, rfl, hheap, ?_, hstr⟩
  simp [hcalls]

theorem NewFromUtf8_success_contents (isolate : Isolate) (data : List Byte) (length : Int)
    (str : Nat) (below : List (List JS.Value)) (top : List JS.Value)
    (hstack : isolate.rootingStack = below ++ [top])
    (h : (String.NewFromUtf8.newString isolate.cx data length).1 = some str) :
    (String.NewFromUtf8 isolate data NewStringType.kNormal length).isolate.slotValue
        { frame := below.length, slot := top.length } = some (JS.Value.string str) ∧
      (String.NewFromUtf8 isolate data NewStringType.kNormal length).isolate.stringContents
        { val := some { frame := below.length, slot := top.length } } =
        some (String.NewFromUtf8.requestedBytes data length) := by
  obtain ⟨-, hroot, -, hheap, -, hstr⟩ :=
    NewFromUtf8_success isolate data length str below top hstack h
  have hslot : (top ++ [JS.Value.string str])[top.length]? = some (JS.Value.string str) := by
    simp
  have hcell : (String.NewFromUtf8 isolate data NewStringType.kNormal length).isolate.cx.heap[str]?
      = some (String.NewFromUtf8.requestedBytes data length) := by
    rw [hheap, hstr]; simp
  refine ⟨?_, stringContents_top _ below _ top.length str _ hroot hslot hcell⟩
  rw [slotValue_top _ below _ top.length hroot, hslot]

theorem NewFromUtf8_calls (isolate : Isolate) (data : List Byte) (length : Int) :
    (String.NewFromUtf8 isolate data NewStringType.kNormal length).isolate.cx.calls =
      isolate.cx.calls ++
        (match (String.NewFromUtf8.newString isolate.cx data length).1 with
         | none => [String.NewFromUtf8.newStringCall data length]
         | some str =>
           [String.NewFromUtf8.newStringCall data length,
             EngineCall.Root (JS.Value.string str)]) := by
  cases h : (String.NewFromUtf8.newString isolate.cx data length).1 with
  | none => exact (NewFromUtf8_failure isolate data length h).2.2.2.2
  | some str =>
    have hcalls : (String.NewFromUtf8.newString isolate.cx data length).2.calls =
        isolate.cx.calls ++ [String.NewFromUtf8.newStringCall data length] := by
      rw [newStringFor_eq] at h ⊢
      exact (newString_eq_some h).2.2
    simp only [String.NewFromUtf8, JSContextFromIsolate, internal.Local.New, Isolate.Root, h]
    cases isolate.rootingStack.getLast? <;> simp [hcalls]

/-! ## The claims -/

/-- C1: with an explicit length `L ≥ 0`, mode `kNormal`, a Scope entered and the counted copy
succeeding with the engine string `str`, the fallible overload returns a non-empty Maybe; its
handle refers to `str`, whose bytes are exactly the first `L` bytes of the buffer, and the
engine primitives invoked are the counted copy with count `L` followed by the root of `str`,
never the zero-terminated copy. -/
theorem NewFromUtf8_counted_copy (isolate : Isolate) (data : List Byte) (L : Int) (str : Nat)
    (hL : 0 ≤ L) (hscope : isolate.rootingStack ≠ [])
    (halloc : (JS_NewStringCopyN (JSContextFromIsolate isolate) data L.toNat).1 = some str) :
    ∃ ref : SlotRef,
      (String.NewFromUtf8 isolate data NewStringType.kNormal L).result =
        .returned (MaybeLocal.Just { val := some ref }) ∧
      (MaybeLocal.Just { val := some ref }).IsEmpty = false ∧
      (String.NewFromUtf8 isolate data NewStringType.kNormal L).isolate.slotValue ref =
        some (JS.Value.string str) ∧
      (String.NewFromUtf8 isolate data NewStringType.kNormal L).isolate.stringContents
        { val := some ref } = some (data.take L.toNat) ∧
      (String.NewFromUtf8 isolate data NewStringType.kNormal L).isolate.cx.calls =
        isolate.cx.calls ++
          [EngineCall.NewStringCopyN data L.toNat, EngineCall.Root (JS.Value.string str)] := by
  obtain ⟨below, top, hstack⟩ := exists_top_of_ne_nil hscope
  have h : (String.NewFromUtf8.newString isolate.cx data L).1 = some str := by
    simpa [String.NewFromUtf8.newString, hL, JSContextFromIsolate] using halloc
  obtain ⟨hres, -, -, -, hcalls, -⟩ := NewFromUtf8_success isolate data L str below top hstack h
  obtain ⟨hslot, hcontents⟩ :=
    NewFromUtf8_success_contents isolate data L str below top hstack h
  refine ⟨{ frame := below.length, slot := top.length }, hres, rfl, hslot, ?_, ?_⟩
  · simpa [String.NewFromUtf8.requestedBytes, hL] using hcontents
  · simpa [String.NewFromUtf8.newStringCall, hL] using hcalls

/-- C1 at a buffer with a zero byte inside its first three bytes. -/
theorem NewFromUtf8_counted_copy_witness :
    ∃ ref : SlotRef,
      (String.NewFromUtf8 sampleIsolate [104, 0, 105, 33] NewStringType.kNormal 3).result =
        .returned (MaybeLocal.Just { val := some ref }) ∧
      (MaybeLocal.Just { val := some ref }).IsEmpty = false ∧
      (String.NewFromUtf8 sampleIsolate [104, 0, 105, 33] NewStringType.kNormal 3).isolate.slotValue
        ref = some (JS.Value.string 0) ∧
      (String.NewFromUtf8 sampleIsolate [104, 0, 105, 33] NewStringType.kNormal
        3).isolate.stringContents { val := some ref } =
        some (List.take (3 : Int).toNat [104, 0, 105, 33]) ∧
      (String.NewFromUtf8 sampleIsolate [104, 0, 105, 33] NewStringType.kNormal 3).isolate.cx.calls =
        sampleIsolate.cx.calls ++
          [EngineCall.NewStringCopyN [104, 0, 105, 33] (3 : Int).toNat,
            EngineCall.Root (JS.Value.string 0)] :=
  NewFromUtf8_counted_copy sampleIsolate [104, 0, 105, 33] 3 0 (by decide) (by decide)
    (by decide)

/-- C2: with any length below zero, mode `kNormal`, a Scope entered, a buffer holding a zero
byte and the zero-terminated copy succeeding, the fallible overload returns a non-empty Maybe
whose string holds the bytes of the buffer before its first zero byte; every other negative
length leaves exactly the same outcome. -/
theorem NewFromUtf8_zero_terminated (isolate : Isolate) (data : List Byte) (length : Int)
    (str : Nat) (hneg : length < 0) (hzero : (0 : Byte) ∈ data)
    (hscope : isolate.rootingStack ≠ [])
    (halloc : (JS_NewStringCopyZ (JSContextFromIsolate isolate) data).1 = some str) :
    (∀ other : Int, other < 0 →
        String.NewFromUtf8 isolate data NewStringType.kNormal other =
          String.NewFromUtf8 isolate data NewStringType.kNormal length) ∧
      ∃ (ref : SlotRef) (chars rest : List Byte),
        (String.NewFromUtf8 isolate data NewStringType.kNormal length).result =
          .returned (MaybeLocal.Just { val := some ref }) ∧
        (MaybeLocal.Just { val := some ref }).IsEmpty = false ∧
        (String.NewFromUtf8 isolate data NewStringType.kNormal length).isolate.stringContents
          { val := some ref } = some chars ∧
        data = chars ++ 0 :: rest ∧ (0 : Byte) ∉ chars := by
  have hlen : ¬ length ≥ 0 := not_le.mpr hneg
  constructor
  · intro other hother
    have ho : ¬ other ≥ 0 := not_le.mpr hother
    simp [String.NewFromUtf8, String.NewFromUtf8.newString, ho, hlen]
  · obtain ⟨below, top, hstack⟩ := exists_top_of_ne_nil hscope
    have h : (String.NewFromUtf8.newString isolate.cx data length).1 = some str := by
      simpa [String.NewFromUtf8.newString, hlen, JSContextFromIsolate] using halloc
    obtain ⟨hres, -⟩ := NewFromUtf8_success isolate data length str below top hstack h
    obtain ⟨-, hcontents⟩ :=
      NewFromUtf8_success_contents isolate data length str below top hstack h
    obtain ⟨rest, hsplit, hnot⟩ := takeWhile_ne_zero_split data hzero
    refine ⟨{ frame := below.length, slot := top.length },
      data.takeWhile (fun b => b ≠ 0), rest, hres, rfl, ?_, hsplit, hnot⟩
    simpa [String.NewFromUtf8.requestedBytes, hlen] using hcontents

/-- C2 at the bytes of `hi`, a zero byte and two more bytes, with the length `-7`. -/
theorem NewFromUtf8_zero_terminated_witness :
    (∀ other : Int, other < 0 →
        String.NewFromUtf8 sampleIsolate [104, 105, 0, 105, 103] NewStringType.kNormal other =
          String.NewFromUtf8 sampleIsolate [104, 105, 0, 105, 103] NewStringType.kNormal (-7)) ∧
      ∃ (ref : SlotRef) (chars rest : List Byte),
        (String.NewFromUtf8 sampleIsolate [104, 105, 0, 105, 103] NewStringType.kNormal
          (-7)).result = .returned (MaybeLocal.Just { val := some ref }) ∧
        (MaybeLocal.Just { val := some ref }).IsEmpty = false ∧
        (String.NewFromUtf8 sampleIsolate [104, 105, 0, 105, 103] NewStringType.kNormal
          (-7)).isolate.stringContents { val := some ref } = some chars ∧
        [104, 105, 0, 105, 103] = chars ++ 0 :: rest ∧ (0 : Byte) ∉ chars :=
  NewFromUtf8_zero_terminated sampleIsolate [104, 105, 0, 105, 103] (-7) 0 (by decide)
    (by decide) (by decide) (by decide)

/-- C3: for every isolate, buffer and length, and for each of the two legacy modes, the legacy
overload ends exactly as the specification words it: one call of the fallible overload with
the converted mode (`kNormalString` becomes `kNormal`, `kInternalizedString` becomes
`kInternalized`), then the held handle if the Maybe holds one and the empty handle
otherwise; the isolate (engine heap, engine calls, rooting stack, pending failure) is the one
that single call leaves.  In particular the interned legacy mode reaches the assertion of
the fallible overload and stops there with the isolate untouched. -/
theorem NewFromUtf8Local_eq_FromMaybe (isolate : Isolate) (data : List Byte) (length : Int) :
    String.NewFromUtf8Local isolate data String.NewStringType.kNormalString length =
        String.NewFromUtf8Local_spec isolate data NewStringType.kNormal length ∧
      String.NewFromUtf8Local isolate data String.NewStringType.kInternalizedString length =
        String.NewFromUtf8Local_spec isolate data NewStringType.kInternalized length ∧
      String.NewFromUtf8Local isolate data String.NewStringType.kInternalizedString length =
        { result := .aborted Fault.assertionFailure, isolate := isolate } := by
  have key : ∀ mode : NewStringType,
      ({ result := (String.NewFromUtf8 isolate data mode length).result.map
            (fun m => m.FromMaybe Local.empty),
         isolate := (String.NewFromUtf8 isolate data mode length).isolate } : Outcome Local) =
        String.NewFromUtf8Local_spec isolate data mode length := by
    intro mode
    unfold String.NewFromUtf8Local_spec
    rcases String.NewFromUtf8 isolate data mode length with ⟨result, after⟩
    rcases result with ⟨⟨_ | held⟩⟩ | fault <;> rfl
  refine ⟨?_, ?_, ?_⟩
  · exact key NewStringType.kNormal
  · exact key NewStringType.kInternalized
  · simp [String.NewFromUtf8Local, String.NewStringType.static_cast, String.NewFromUtf8,
      Completion.map]

/-- C4: with mode `kNormal`, when the engine allocation returns null the fallible overload
returns the empty Maybe (it does not abort), the rooting stack is the one before the call,
and the only engine primitive invoked is the allocation: the root is never reached. -/
theorem NewFromUtf8_allocation_failure (isolate : Isolate) (data : List Byte) (length : Int)
    (halloc :
      (String.NewFromUtf8.newString (JSContextFromIsolate isolate) data length).1 = none) :
    (String.NewFromUtf8 isolate data NewStringType.kNormal length).result =
        .returned MaybeLocal.Empty ∧
      MaybeLocal.Empty.IsEmpty = true ∧
      (String.NewFromUtf8 isolate data NewStringType.kNormal length).isolate.rootingStack =
        isolate.rootingStack ∧
      (String.NewFromUtf8 isolate data NewStringType.kNormal length).isolate.cx.calls =
        isolate.cx.calls ++ [String.NewFromUtf8.newStringCall data length] ∧
      ∀ value,
        String.NewFromUtf8.newStringCall data length ≠ EngineCall.Root value := by
  obtain ⟨hres, hroot, -, -, hcalls⟩ := NewFromUtf8_failure isolate data length halloc
  refine ⟨hres, rfl, hroot, hcalls, ?_⟩
  intro value
  unfold String.NewFromUtf8.newStringCall
  split <;> simp

/-- C4 inside a nested Scope with the next allocation scheduled to fail. -/
theorem NewFromUtf8_allocation_failure_witness :
    (String.NewFromUtf8 exhaustedIsolate [104, 105] NewStringType.kNormal 2).result =
        .returned MaybeLocal.Empty ∧
      MaybeLocal.Empty.IsEmpty = true ∧
      (String.NewFromUtf8 exhaustedIsolate [104, 105] NewStringType.kNormal
        2).isolate.rootingStack = exhaustedIsolate.rootingStack ∧
      (String.NewFromUtf8 exhaustedIsolate [104, 105] NewStringType.kNormal 2).isolate.cx.calls =
        exhaustedIsolate.cx.calls ++ [String.NewFromUtf8.newStringCall [104, 105] 2] ∧
      ∀ value,
        String.NewFromUtf8.newStringCall [104, 105] 2 ≠ EngineCall.Root value :=
  NewFromUtf8_allocation_failure exhaustedIsolate [104, 105] 2 (by decide)

/-- C5: when the engine allocation of a call with mode `kNormal` fails, the result is the
empty Maybe and the pending-failure slot of the isolate holds what it held before the
call. -/
theorem NewFromUtf8_failure_channel (isolate : Isolate) (data : List Byte) (length : Int)
    (halloc :
      (String.NewFromUtf8.newString (JSContextFromIsolate isolate) data length).1 = none) :
    (String.NewFromUtf8 isolate data NewStringType.kNormal length).result =
        .returned MaybeLocal.Empty ∧
      (String.NewFromUtf8 isolate data NewStringType.kNormal length).isolate.pendingFailure =
        isolate.pendingFailure := by
  obtain ⟨hres, -, hpending, -⟩ := NewFromUtf8_failure isolate data length halloc
  exact ⟨hres, hpending⟩

/-- C5 on an isolate that already has a pending failure, with the length `-1`. -/
theorem NewFromUtf8_failure_channel_witness :
    (String.NewFromUtf8 exhaustedIsolate [104, 105, 0] NewStringType.kNormal (-1)).result =
        .returned MaybeLocal.Empty ∧
      (String.NewFromUtf8 exhaustedIsolate [104, 105, 0] NewStringType.kNormal
        (-1)).isolate.pendingFailure = exhaustedIsolate.pendingFailure :=
  NewFromUtf8_failure_channel exhaustedIsolate [104, 105, 0] (-1) (by decide)

/-- C6: for every mode other than `kNormal` the fallible overload stops on its assertion,
returns no Maybe, and leaves the whole isolate as it was: no engine primitive was invoked,
nothing was allocated and nothing was rooted. -/
theorem NewFromUtf8_unsupported_mode (isolate : Isolate) (data : List Byte)
    (type : NewStringType) (length : Int) (htype : type ≠ NewStringType.kNormal) :
    String.NewFromUtf8 isolate data type length =
      { result := .aborted Fault.assertionFailure, isolate := isolate } := by
  simp [String.NewFromUtf8, htype]

/-- C6 at the interned mode. -/
theorem NewFromUtf8_unsupported_mode_witness :
    String.NewFromUtf8 sampleIsolate [104, 105] NewStringType.kInternalized 2 =
      { result := .aborted Fault.assertionFailure, isolate := sampleIsolate } :=
  NewFromUtf8_unsupported_mode sampleIsolate [104, 105] NewStringType.kInternalized 2
    (by decide)

/-- C7: with mode `kNormal`, frames `below` under the current top frame `top`, and the engine
allocation succeeding with the string `str`, the fallible overload returns a non-empty Maybe
whose handle is the next free slot of the top frame; that slot holds `str`, which is a cell
the engine heap did not have before the call; the top frame gained exactly that one slot and
the frames below are unchanged. -/
theorem NewFromUtf8_roots_in_top_frame (isolate : Isolate) (data : List Byte) (length : Int)
    (str : Nat) (below : List (List JS.Value)) (top : List JS.Value)
    (hstack : isolate.rootingStack = below ++ [top])
    (halloc :
      (String.NewFromUtf8.newString (JSContextFromIsolate isolate) data length).1 = some str) :
    (String.NewFromUtf8 isolate data NewStringType.kNormal length).result =
        .returned (MaybeLocal.Just { val := some { frame := below.length, slot := top.length } }) ∧
      (MaybeLocal.Just
        { val := some { frame := below.length, slot := top.length } }).IsEmpty = false ∧
      (String.NewFromUtf8 isolate data NewStringType.kNormal length).isolate.rootingStack =
        below ++ [top ++ [JS.Value.string str]] ∧
      (String.NewFromUtf8 isolate data NewStringType.kNormal length).isolate.slotValue
        { frame := below.length, slot := top.length } = some (JS.Value.string str) ∧
      isolate.slotValue { frame := below.length, slot := top.length } = none ∧
      str = isolate.cx.heap.length ∧
      (String.NewFromUtf8 isolate data NewStringType.kNormal length).isolate.cx.heap =
        isolate.cx.heap ++ [String.NewFromUtf8.requestedBytes data length] := by
  obtain ⟨hres, hroot, -, hheap, -, hstr⟩ :=
    NewFromUtf8_success isolate data length str below top hstack halloc
  obtain ⟨hslot, -⟩ :=
    NewFromUtf8_success_contents isolate data length str below top hstack halloc
  refine ⟨hres, rfl, hroot, hslot, ?_, hstr, hheap⟩
  rw [slotValue_top isolate below top top.length hstack]
  simp

/-- C7 inside a nested Scope whose outer frame already holds a slot. -/
theorem NewFromUtf8_roots_in_top_frame_witness :
    (String.NewFromUtf8 nestedIsolate [104, 105]
        NewStringType.kNormal 2).result =
        .returned (MaybeLocal.Just
          { val := some { frame := [[JS.Value.string 0]].length,
                          slot := ([] : List JS.Value).length } }) ∧
      (MaybeLocal.Just
        { val := some { frame := [[JS.Value.string 0]].length,
                        slot := ([] : List JS.Value).length } }).IsEmpty = false ∧
      (String.NewFromUtf8 nestedIsolate [104, 105]
        NewStringType.kNormal 2).isolate.rootingStack =
        [[JS.Value.string 0]] ++ [[] ++ [JS.Value.string 1]] ∧
      (String.NewFromUtf8 nestedIsolate [104, 105]
        NewStringType.kNormal 2).isolate.slotValue
        { frame := [[JS.Value.string 0]].length, slot := ([] : List JS.Value).length } =
        some (JS.Value.string 1) ∧
      nestedIsolate.slotValue
        { frame := [[JS.Value.string 0]].length, slot := ([] : List JS.Value).length } = none ∧
      1 = nestedIsolate.cx.heap.length ∧
      (String.NewFromUtf8 nestedIsolate [104, 105]
        NewStringType.kNormal 2).isolate.cx.heap =
        nestedIsolate.cx.heap ++
          [String.NewFromUtf8.requestedBytes [104, 105] 2] :=
  NewFromUtf8_roots_in_top_frame nestedIsolate [104, 105] 2 1
    [[JS.Value.string 0]] [] (by decide) (by decide)

/-- C8: two successive calls with mode `kNormal` on the same buffer and length inside the
same Scope, both engine allocations succeeding, return two non-empty handles that differ:
they are different slots of the same frame, the slots hold different engine strings, and the
two strings have the same bytes. -/
theorem NewFromUtf8_no_interning (isolate : Isolate) (data : List Byte) (length : Int)
    (str1 str2 : Nat) (hscope : isolate.rootingStack ≠ [])
    (h1 : (String.NewFromUtf8.newString (JSContextFromIsolate isolate) data length).1 =
      some str1)
    (h2 : (String.NewFromUtf8.newString
      (JSContextFromIsolate (String.NewFromUtf8 isolate data NewStringType.kNormal length).isolate)
      data length).1 = some str2) :
    ∃ ref1 ref2 : SlotRef,
      (String.NewFromUtf8 isolate data NewStringType.kNormal length).result =
        .returned (MaybeLocal.Just { val := some ref1 }) ∧
      (String.NewFromUtf8 (String.NewFromUtf8 isolate data NewStringType.kNormal length).isolate
        data NewStringType.kNormal length).result =
        .returned (MaybeLocal.Just { val := some ref2 }) ∧
      ({ val := some ref1 } : Local) ≠ { val := some ref2 } ∧
      ref1.frame = ref2.frame ∧
      str1 ≠ str2 ∧
      (String.NewFromUtf8 (String.NewFromUtf8 isolate data NewStringType.kNormal length).isolate
        data NewStringType.kNormal length).isolate.slotValue ref1 = some (JS.Value.string str1) ∧
      (String.NewFromUtf8 (String.NewFromUtf8 isolate data NewStringType.kNormal length).isolate
        data NewStringType.kNormal length).isolate.slotValue ref2 = some (JS.Value.string str2) ∧
      (String.NewFromUtf8 (String.NewFromUtf8 isolate data NewStringType.kNormal length).isolate
        data NewStringType.kNormal length).isolate.stringContents { val := some ref1 } =
        some (String.NewFromUtf8.requestedBytes data length) ∧
      (String.NewFromUtf8 (String.NewFromUtf8 isolate data NewStringType.kNormal length).isolate
        data NewStringType.kNormal length).isolate.stringContents { val := some ref2 } =
        some (String.NewFromUtf8.requestedBytes data length) := by
  obtain ⟨below, top, hstack⟩ := exists_top_of_ne_nil hscope
  obtain ⟨hres1, hroot1, -, hheap1, -, hstr1⟩ :=
    NewFromUtf8_success isolate data length str1 below top hstack h1
  obtain ⟨hres2, hroot2, -, hheap2, -, hstr2⟩ :=
    NewFromUtf8_success _ data length str2 below (top ++ [JS.Value.string str1]) hroot1 h2
  obtain ⟨hslot2, hcontents2⟩ :=
    NewFromUtf8_success_contents _ data length str2 below (top ++ [JS.Value.string str1])
      hroot1 h2
  have hne : str1 ≠ str2 := by
    rw [hstr1, hstr2, hheap1]; simp
  have hslot1 : (top ++ [JS.Value.string str1] ++ [JS.Value.string str2])[top.length]? =
      some (JS.Value.string str1) := by
    rw [List.append_assoc]
    exact getElem?_append_cons_length top _ _
  have hcell1 : (String.NewFromUtf8
      (String.NewFromUtf8 isolate data NewStringType.kNormal length).isolate data
      NewStringType.kNormal length).isolate.cx.heap[str1]? =
      some (String.NewFromUtf8.requestedBytes data length) := by
    rw [hheap2, hheap1, hstr1, List.append_assoc]
    exact getElem?_append_cons_length isolate.cx.heap _ _
  refine ⟨{ frame := below.length, slot := top.length },
    { frame := below.length, slot := (top ++ [JS.Value.string str1]).length },
    hres1, hres2, ?_, rfl, hne, ?_, hslot2, ?_, hcontents2⟩
  · simp
  · rw [slotValue_top _ below _ top.length hroot2, hslot1]
  · exact stringContents_top _ below _ top.length str1 _ hroot2 hslot1 hcell1

/-- C8 at the bytes of `hi` with the length `2`, called twice inside one Scope. -/
theorem NewFromUtf8_no_interning_witness :
    ∃ ref1 ref2 : SlotRef,
      (String.NewFromUtf8 nestedIsolate [104, 105] NewStringType.kNormal 2).result =
        .returned (MaybeLocal.Just { val := some ref1 }) ∧
      (String.NewFromUtf8 (String.NewFromUtf8 nestedIsolate [104, 105] NewStringType.kNormal
        2).isolate [104, 105] NewStringType.kNormal 2).result =
        .returned (MaybeLocal.Just { val := some ref2 }) ∧
      ({ val := some ref1 } : Local) ≠ { val := some ref2 } ∧
      ref1.frame = ref2.frame ∧
      1 ≠ 2 ∧
      (String.NewFromUtf8 (String.NewFromUtf8 nestedIsolate [104, 105] NewStringType.kNormal
        2).isolate [104, 105] NewStringType.kNormal 2).isolate.slotValue ref1 =
        some (JS.Value.string 1) ∧
      (String.NewFromUtf8 (String.NewFromUtf8 nestedIsolate [104, 105] NewStringType.kNormal
        2).isolate [104, 105] NewStringType.kNormal 2).isolate.slotValue ref2 =
        some (JS.Value.string 2) ∧
      (String.NewFromUtf8 (String.NewFromUtf8 nestedIsolate [104, 105] NewStringType.kNormal
        2).isolate [104, 105] NewStringType.kNormal 2).isolate.stringContents
        { val := some ref1 } = some (String.NewFromUtf8.requestedBytes [104, 105] 2) ∧
      (String.NewFromUtf8 (String.NewFromUtf8 nestedIsolate [104, 105] NewStringType.kNormal
        2).isolate [104, 105] NewStringType.kNormal 2).isolate.stringContents
        { val := some ref2 } = some (String.NewFromUtf8.requestedBytes [104, 105] 2) :=
  NewFromUtf8_no_interning nestedIsolate [104, 105] 2 1 2 (by decide) (by decide) (by decide)

/-- C9: with the normal-string mode and a Scope entered, the legacy overload always returns a
handle and leaves the pending-failure slot alone: it returns the empty handle when the engine
allocation fails, and when it succeeds the very handle the fallible overload holds, which is
not empty. -/
theorem NewFromUtf8Local_normal_string (isolate : Isolate) (data : List Byte) (length : Int)
    (hscope : isolate.rootingStack ≠ []) :
    ∃ l : Local,
      (String.NewFromUtf8Local isolate data String.NewStringType.kNormalString length).result =
        .returned l ∧
      (String.NewFromUtf8Local isolate data String.NewStringType.kNormalString
        length).isolate.pendingFailure = isolate.pendingFailure ∧
      ((String.NewFromUtf8.newString (JSContextFromIsolate isolate) data length).1 = none →
        l = Local.empty ∧ l.IsEmpty = true) ∧
      ((String.NewFromUtf8.newString (JSContextFromIsolate isolate) data length).1 ≠ none →
        l.IsEmpty = false ∧
        (String.NewFromUtf8 isolate data NewStringType.kNormal length).result =
          .returned (MaybeLocal.Just l)) := by
  obtain ⟨below, top, hstack⟩ := exists_top_of_ne_nil hscope
  cases h : (String.NewFromUtf8.newString isolate.cx data length).1 with
  | none =>
    obtain ⟨hres, -, hpending, -⟩ := NewFromUtf8_failure isolate data length h
    refine ⟨Local.empty, ?_, hpending, fun _ => ⟨rfl, rfl⟩, fun hne => absurd ?_ hne⟩
    · simp only [String.NewFromUtf8Local, String.NewStringType.static_cast, hres]
      rfl
    · exact h
  | some str =>
    obtain ⟨hres, -, hpending, -⟩ :=
      NewFromUtf8_success isolate data length str below top hstack h
    refine ⟨{ val := some { frame := below.length, slot := top.length } }, ?_, hpending,
      fun hnone => ?_, fun _ => ⟨rfl, hres⟩⟩
    · simp only [String.NewFromUtf8Local, String.NewStringType.static_cast, hres]
      rfl
    · simp [JSContextFromIsolate, h] at hnone

/-- C9 on an isolate whose next engine allocation fails. -/
theorem NewFromUtf8Local_normal_string_witness :
    ∃ l : Local,
      (String.NewFromUtf8Local exhaustedIsolate [104, 105]
        String.NewStringType.kNormalString 2).result = .returned l ∧
      (String.NewFromUtf8Local exhaustedIsolate [104, 105]
        String.NewStringType.kNormalString 2).isolate.pendingFailure =
        exhaustedIsolate.pendingFailure ∧
      ((String.NewFromUtf8.newString (JSContextFromIsolate exhaustedIsolate) [104, 105] 2).1 =
          none →
        l = Local.empty ∧ l.IsEmpty = true) ∧
      ((String.NewFromUtf8.newString (JSContextFromIsolate exhaustedIsolate) [104, 105] 2).1 ≠
          none →
        l.IsEmpty = false ∧
        (String.NewFromUtf8 exhaustedIsolate [104, 105] NewStringType.kNormal 2).result =
          .returned (MaybeLocal.Just l)) :=
  NewFromUtf8Local_normal_string exhaustedIsolate [104, 105] 2 (by decide)

/-- C10 fails as stated: a call with the interned mode stops on the assertion before the
engine is asked for anything, so that execution performs no string allocation at all. -/
theorem interned_mode_performs_no_allocation :
    (String.NewFromUtf8 sampleIsolate [104, 105] NewStringType.kInternalized 2).result =
        .aborted Fault.assertionFailure ∧
      (String.NewFromUtf8 sampleIsolate [104, 105] NewStringType.kInternalized
        2).isolate.cx.calls = sampleIsolate.cx.calls ∧
      (((String.NewFromUtf8 sampleIsolate [104, 105] NewStringType.kInternalized
        2).isolate.cx.calls.drop sampleIsolate.cx.calls.length).filter
          EngineCall.isAllocation).length = 0 := by
  decide

/-- C10, amended: every call with mode `kNormal` invokes exactly one engine string allocation,
the counted copy for a length of at least zero and the zero-terminated copy otherwise; the
engine primitives it invokes are that allocation alone when the allocation fails and that
allocation immediately followed by the root of the new string when it succeeds. -/
theorem NewFromUtf8_allocate_then_root (isolate : Isolate) (data : List Byte) (length : Int) :
    (String.NewFromUtf8 isolate data NewStringType.kNormal length).isolate.cx.calls =
        isolate.cx.calls ++
          (match (String.NewFromUtf8.newString (JSContextFromIsolate isolate) data length).1 with
           | none => [String.NewFromUtf8.newStringCall data length]
           | some str =>
             [String.NewFromUtf8.newStringCall data length,
               EngineCall.Root (JS.Value.string str)]) ∧
      (((String.NewFromUtf8 isolate data NewStringType.kNormal length).isolate.cx.calls.drop
        isolate.cx.calls.length).filter EngineCall.isAllocation).length = 1 ∧
      String.NewFromUtf8.newStringCall data length =
        (if length ≥ 0 then EngineCall.NewStringCopyN data length.toNat
         else EngineCall.NewStringCopyZ data) := by
  have hcalls := NewFromUtf8_calls isolate data length
  have hkind : (String.NewFromUtf8.newStringCall data length).isAllocation = true := by
    unfold String.NewFromUtf8.newStringCall
    split <;> rfl
  refine ⟨hcalls, ?_, rfl⟩
  rw [hcalls, List.drop_left]
  cases (String.NewFromUtf8.newString isolate.cx data length).1 with
  | none => simp [List.filter_cons, hkind]
  | some str =>
    have hroot : (EngineCall.Root (JS.Value.string str)).isAllocation = false := rfl
    simp [List.filter_cons, hkind, hroot]

end v8
